import Mathlib

/-!
Verification of the dynamic form-validation pipeline of the shelf.nu
repository: the schema merger that combines the static base form schema
with tenant-defined custom fields, and the field validator applied to
decoded multipart form submissions, together with the asset-form caller
(`app/components/assets/form.tsx`) and the booking route action
(`app/routes/_layout+/bookings.$bookingId.tsx`).

The base schema `NewAssetFormSchema`, the caller-side custom-field
mapping, and the booking action control flow are embedded from the
source files. The merger/validator core (`~/utils/custom-fields`) and
the file-upload validator (`~/atoms/file`) are not among the provided
source files; their definitions below are modelled from the
specification and are marked as such in their doc comments.
-/

set_option autoImplicit false

/-- A custom-field definition as fetched by the loader from the database
(`customFields` in `app/components/assets/form.tsx`): the `type` field is
the raw database enum value (e.g. `TEXT`) and `helpText` is nullable. -/
structure LoaderCustomField where
  id : String
  name : String
  helpText : Option String
  required : Bool
  type : String
  options : List String
  active : Bool
deriving DecidableEq, Repr

/-- The shape the asset form hands to the schema merger
(`CustomFieldZodSchema` in the source): lowercased `type`, defaulted
`helpText`. -/
structure CustomFieldZodSchema where
  id : String
  name : String
  helpText : String
  required : Bool
  type : String
  options : List String
deriving DecidableEq, Repr

/-- The per-definition conversion performed by `AssetForm`
(`form.tsx` lines 56-66): the source maps each loader record through
`cf.active && \x7b ... \x7d`, so an inactive record yields the JavaScript
value `false` — embedded here as `none` — while an active record yields
the converted definition. -/
def toZodSchemaEntry (cf : LoaderCustomField) : Option CustomFieldZodSchema :=
  if cf.active then
    some { id := cf.id, name := cf.name, helpText := cf.helpText.getD (""),
           required := cf.required, type := cf.type.toLower, options := cf.options }
  else
    none

/-- The sequence `AssetForm` passes to `mergedSchema`: the source uses
`Array.prototype.map` (not `filter`), so every loader record contributes
one entry, inactive records included (as `false`/`none` placeholders). -/
def customFieldsPassedToMerge (cfs : List LoaderCustomField) : List (Option CustomFieldZodSchema) :=
  cfs.map toZodSchemaEntry

/-- Modelled from the spec: "inactive ones are filtered by the caller
before invocation". The sequence the caller is specified to pass: only
the active definitions, the inactive ones removed. Stated over the same
entry type as `customFieldsPassedToMerge` for direct comparison. -/
def activeCustomFieldsSpec (cfs : List LoaderCustomField) : List (Option CustomFieldZodSchema) :=
  (cfs.filter (fun cf => cf.active)).map toZodSchemaEntry

/-- The four custom-field types of the pipeline. -/
inductive FieldType
  | text
  | number
  | date
  | boolean
deriving DecidableEq, Repr

/-- One validation rule of a (merged) schema: the base-schema rules
mirror the zod combinators of `NewAssetFormSchema` (`z.string().min(n, msg)`,
`z.string()`, `z.string().optional()`), and `custom` is the rule derived
from a custom-field definition. -/
inductive Rule
  | stringMin (minLen : Nat) (msg : String)
  | string
  | optionalString
  | custom (t : FieldType) (required : Bool)
deriving DecidableEq, Repr

/-- A (merged) schema: an ordered association of field names to rules. -/
abbrev Schema := List (String × Rule)

/-- The static base schema of the asset form, embedded from
`NewAssetFormSchema` in `app/components/assets/form.tsx` lines 24-35. -/
def NewAssetFormSchema : Schema :=
  [ (("title"), Rule.stringMin 2 ("Title is required")),
    (("description"), Rule.string),
    (("category"), Rule.string),
    (("newLocationId"), Rule.optionalString),
    (("currentLocationId"), Rule.optionalString),
    (("qrId"), Rule.optionalString),
    (("tags"), Rule.optionalString) ]

/-- A malformed or contradictory field definition, identifying the
offending field by name. Not user-facing. -/
structure SchemaConfigurationError where
  fieldName : String
deriving DecidableEq, Repr

/-- The recognised custom-field type tags. -/
def isValidFieldType (t : String) : Bool :=
  (t == ("text")) || (t == ("number")) || (t == ("date")) || (t == ("boolean"))

/-- Modelled from the spec: "For each custom field, derive one validation
rule from its `type`"; an unknown `type` "is a configuration error; policy
is to fail the merge with a `SchemaConfigurationError` identifying the
offending field name". The derivation itself is part of the
`~/utils/custom-fields` module that is not among the provided sources. -/
def customRule (cf : CustomFieldZodSchema) : Except SchemaConfigurationError Rule :=
  if cf.type = ("text") then Except.ok (Rule.custom FieldType.text cf.required)
  else if cf.type = ("number") then Except.ok (Rule.custom FieldType.number cf.required)
  else if cf.type = ("date") then Except.ok (Rule.custom FieldType.date cf.required)
  else if cf.type = ("boolean") then Except.ok (Rule.custom FieldType.boolean cf.required)
  else Except.error { fieldName := cf.name }

/-- Modelled from the spec: the rule set contributed by the custom-field
definitions, one rule per definition, failing on the first malformed
definition rather than skipping it. -/
def buildCustomRules : List CustomFieldZodSchema → Except SchemaConfigurationError Schema
  | [] => Except.ok []
  | cf :: rest =>
    match customRule cf with
    | Except.error e => Except.error e
    | Except.ok r =>
      match buildCustomRules rest with
      | Except.error e => Except.error e
      | Except.ok rs => Except.ok ((cf.name, r) :: rs)

/-- Modelled from the spec: `merge(base, customFields) -> MergedSchema`,
the union of the base field set with one rule per custom-field
definition (the `mergedSchema` function of `~/utils/custom-fields`,
which is not among the provided sources). Pure function of its inputs. -/
def mergedSchema (baseSchema : Schema) (customFields : List CustomFieldZodSchema) :
    Except SchemaConfigurationError Schema :=
  (buildCustomRules customFields).map (fun rules => baseSchema ++ rules)

/-- The decoded multipart form data: a flat mapping of field name to
string value (the file part is handled separately, see `validateFile`). -/
abbrev RawValues := List (String × String)

/-- Reads a field from the raw values; a field absent from the mapping is
treated as empty, per the spec. -/
def lookupField (rv : RawValues) (name : String) : String :=
  match rv.find? (fun p => p.1 == name) with
  | some p => p.2
  | none => ("")

/-- A typed, coerced field value on validation success. -/
inductive FieldValue
  | str (s : String)
  | num (n : Int)
  | date (ymd : Nat × Nat × Nat)
  | bool (b : Bool)
deriving DecidableEq, Repr

/-- Accumulates decimal digits; `none` on any non-digit character. -/
def digitsVal (cs : List Char) : Option Nat :=
  cs.foldl
    (fun acc c =>
      match acc with
      | none => none
      | some n => if c.isDigit then some (n * 10 + (c.toNat - 48)) else none)
    (some 0)

/-- Modelled from the spec: "`number` → value must parse as a numeric
literal"; string of decimal digits with an optional leading minus sign. -/
def parseNumber (s : String) : Option Int :=
  match s.toList with
  | [] => none
  | c :: rest =>
    if c = ('-') then
      match rest with
      | [] => none
      | _ => (digitsVal rest).map (fun n => -(n : Int))
    else
      (digitsVal (c :: rest)).map (fun n => (n : Int))

/-- Modelled from the spec: "`date` → value must parse as a calendar
date"; ISO `YYYY-MM-DD` with month and day in calendar range. -/
def parseDate (s : String) : Option (Nat × Nat × Nat) :=
  match s.splitOn ("-") with
  | [y, m, d] =>
    match digitsVal y.toList, digitsVal m.toList, digitsVal d.toList with
    | some yn, some mn, some dn =>
      if y.length = 4 && 1 ≤ mn && mn ≤ 12 && 1 ≤ dn && dn ≤ 31 then
        some (yn, mn, dn)
      else none
    | _, _, _ => none
  | _ => none

/-- Modelled from the spec: the "fixed truthy/falsy token set" accepted
for boolean custom fields. -/
def truthyTokens : List String := [("on"), ("true"), ("yes"), ("1")]

/-- Falsy counterpart of `truthyTokens`. -/
def falsyTokens : List String := [("off"), ("false"), ("no"), ("0")]

/-- Modelled from the spec: applies one rule to one raw value. Returns a
human-readable, field-specific error message, or the coerced value
(`none` for an optional field left empty); a boolean field "defaults to
false when optional and absent". -/
def checkRule (name : String) (r : Rule) (raw : String) : Except String (Option FieldValue) :=
  match r with
  | Rule.stringMin minLen msg =>
    if raw.length < minLen then Except.error msg else Except.ok (some (FieldValue.str raw))
  | Rule.string => Except.ok (some (FieldValue.str raw))
  | Rule.optionalString =>
    if raw = ("") then Except.ok none else Except.ok (some (FieldValue.str raw))
  | Rule.custom t required =>
    if raw = ("") then
      match t, required with
      | FieldType.boolean, false => Except.ok (some (FieldValue.bool false))
      | _, true => Except.error (name ++ (" is required"))
      | _, false => Except.ok none
    else
      match t with
      | FieldType.text => Except.ok (some (FieldValue.str raw))
      | FieldType.number =>
        match parseNumber raw with
        | some n => Except.ok (some (FieldValue.num n))
        | none => Except.error (name ++ (" must be a number"))
      | FieldType.date =>
        match parseDate raw with
        | some d => Except.ok (some (FieldValue.date d))
        | none => Except.error (name ++ (" must be a valid date"))
      | FieldType.boolean =>
        if truthyTokens.contains raw then Except.ok (some (FieldValue.bool true))
        else if falsyTokens.contains raw then Except.ok (some (FieldValue.bool false))
        else Except.error (name ++ (" must be a boolean"))

/-- The field-level errors collected by one validation pass: one entry
per schema field whose rule rejects the corresponding raw value. -/
def collectErrors (s : Schema) (rv : RawValues) : List (String × String) :=
  s.filterMap
    (fun f =>
      match checkRule f.1 f.2 (lookupField rv f.1) with
      | Except.error m => some (f.1, m)
      | Except.ok _ => none)

/-- The coerced data collected by one validation pass. -/
def collectData (s : Schema) (rv : RawValues) : List (String × FieldValue) :=
  s.filterMap
    (fun f =>
      match checkRule f.1 f.2 (lookupField rv f.1) with
      | Except.ok (some v) => some (f.1, v)
      | _ => none)

/-- Either a typed, validated record or a structured set of field-level
error messages; never both. -/
inductive ValidationResult
  | valid (data : List (String × FieldValue))
  | invalid (errors : List (String × String))
deriving DecidableEq, Repr

/-- Modelled from the spec: `validate(schema, rawValues) -> ValidationResult`,
applying every rule in the schema in a single pass and collecting all
field errors (the `safeParse` application of the merged zod schema; the
combinator semantics live in `~/utils/custom-fields`, not among the
provided sources). -/
def validate (s : Schema) (rv : RawValues) : ValidationResult :=
  let errs := collectErrors s rv
  if errs.isEmpty then ValidationResult.valid (collectData s rv) else ValidationResult.invalid errs

/-- Whether a schema field is violated by the raw values. -/
def ruleViolated (rv : RawValues) (f : String × Rule) : Bool :=
  match checkRule f.1 f.2 (lookupField rv f.1) with
  | Except.error _ => true
  | Except.ok _ => false

/-- Names of the schema fields violated by the raw values, in schema
order. -/
def violatedFields (s : Schema) (rv : RawValues) : List String :=
  (s.filter (ruleViolated rv)).map Prod.fst

/-- Reads a field while threading the raw-values store explicitly, as an
embedding of an implementation over a mutable mapping: the second
component is the store as left after the read. -/
def lookupFieldSt (rv : RawValues) (name : String) : String × RawValues :=
  match rv.find? (fun p => p.1 == name) with
  | some p => (p.2, rv)
  | none => ((""), rv)

/-- Modelled from the spec: the single validation pass over the schema,
threading the raw-values store through every field read so that any
mutation of the mapping would be observable in the final store. -/
def checkFieldsSt : Schema → RawValues → List (String × Except String (Option FieldValue)) × RawValues
  | [], rv => ([], rv)
  | f :: rest, rv =>
    let vr := lookupFieldSt rv f.1
    let pr := checkFieldsSt rest vr.2
    ((f.1, checkRule f.1 f.2 vr.1) :: pr.1, pr.2)

/-- The error entries among the per-field results of a pass. -/
def resultsErrors (results : List (String × Except String (Option FieldValue))) : List (String × String) :=
  results.filterMap
    (fun p =>
      match p.2 with
      | Except.error m => some (p.1, m)
      | Except.ok _ => none)

/-- The coerced data among the per-field results of a pass. -/
def resultsData (results : List (String × Except String (Option FieldValue))) : List (String × FieldValue) :=
  results.filterMap
    (fun p =>
      match p.2 with
      | Except.ok (some v) => some (p.1, v)
      | _ => none)

/-- Modelled from the spec: `validate` run over the mutable raw-values
mapping, returning the result together with the mapping as left after
the pass. -/
def validateSt (s : Schema) (rv : RawValues) : ValidationResult × RawValues :=
  let pr := checkFieldsSt s rv
  let errs := resultsErrors pr.1
  (if errs.isEmpty then ValidationResult.valid (resultsData pr.1) else ValidationResult.invalid errs,
   pr.2)

/-- The `intent` form field read by the booking action
(`bookings.$bookingId.tsx` line 147). -/
inductive Intent
  | save
  | reserve
  | other
deriving DecidableEq, Repr

/-- An observable side effect of the booking action: the `upsertBooking`
persistence call or the `sendNotification` dispatch. -/
inductive Effect
  | upsertBooking (id organizationId : String)
      (name fromDate toDate custodian : Option FieldValue)
  | sendNotification (title message : String)
deriving DecidableEq, Repr

/-- The response value the booking action returns to the framework. -/
inductive ActionResponse
  | errorJson (errors : List (String × String)) (status : Nat)
  | bookingJson (status : Nat)
  | nullResponse
deriving DecidableEq, Repr

/-- Reads one coerced field from validated data. -/
def getField (d : List (String × FieldValue)) (k : String) : Option FieldValue :=
  (d.find? (fun p => p.1 == k)).map Prod.snd

/-- The booking route action from the schema parse onward, embedded from
`app/routes/_layout+/bookings.$bookingId.tsx` lines 128-181: a failed
parse returns the errors as a 400 JSON response before any persistence;
a successful parse with intent `save` performs the `upsertBooking` and
`sendNotification` effects and returns 200; other intents return null. -/
def bookingAction (schema : Schema) (rv : RawValues) (intent : Intent)
    (id organizationId : String) : ActionResponse × List Effect :=
  match validate schema rv with
  | ValidationResult.invalid errs => (ActionResponse.errorJson errs 400, [])
  | ValidationResult.valid d =>
    match intent with
    | Intent.save =>
      (ActionResponse.bookingJson 200,
       [Effect.upsertBooking id organizationId
          (getField d (("name"))) (getField d (("startDate")))
          (getField d (("endDate"))) (getField d (("custodian"))),
        Effect.sendNotification (("Booking saved"))
          (("Your booking has been saved successfully"))])
    | Intent.reserve => (ActionResponse.nullResponse, [])
    | Intent.other => (ActionResponse.nullResponse, [])

/-- An uploaded file part of the multipart form. -/
structure FileUpload where
  filename : String
  mimeType : String
  size : Nat
deriving DecidableEq, Repr

/-- The MIME allow-list for the main-image upload, from the `accept`
attribute of the file input in `form.tsx` line 115. -/
def allowedImageTypes : List String := [("image/png"), ("image/jpeg")]

/-- The size ceiling for the main-image upload, from the form copy
"Accepts PNG, JPG or JPEG (max.4 MB)". -/
def maxImageSize : Nat := 4 * 1024 * 1024

/-- Modelled from the spec: the separate, narrower rule for the reserved
main-image upload field (`validateFileAtom` of `~/atoms/file`, not among
the provided sources): MIME type within the allow-list and size within
the ceiling, the error keyed under the reserved field name in the same
field-keyed error-mapping shape as all other field errors; an absent
file is permitted. -/
def validateFile (file : Option FileUpload) : Option (String × String) :=
  match file with
  | none => none
  | some f =>
    if allowedImageTypes.contains f.mimeType then
      if f.size ≤ maxImageSize then none
      else some ((("mainImage")), ("File size exceeds the 4 MB limit"))
    else some ((("mainImage")), ("File type not allowed"))

/-- The field-keyed error mapping of a validation result. -/
def errorList : ValidationResult → List (String × String)
  | ValidationResult.valid _ => []
  | ValidationResult.invalid errs => errs

/-- The per-request validation as a whole: the merged schema is applied
to the raw values, the reserved main-image file is checked by its own
rule independently, and a file error joins the same error mapping. -/
def fullValidate (s : Schema) (rv : RawValues) (file : Option FileUpload) : ValidationResult :=
  match validateFile file with
  | none => validate s rv
  | some fe =>
    match validate s rv with
    | ValidationResult.valid _ => ValidationResult.invalid [fe]
    | ValidationResult.invalid errs => ValidationResult.invalid (errs ++ [fe])

/-- A schema whose rules are violated on three independent fields by the
empty raw values: the required base title plus two required custom
fields. -/
def sampleThreeViolationsSchema : Schema :=
  NewAssetFormSchema ++
    [(("warranty_months"), Rule.custom FieldType.number true),
     (("purchase_date"), Rule.custom FieldType.date true)]

/-- A loader record for an inactive custom field. -/
def inactiveColorField : LoaderCustomField :=
  { id := ("cf1"), name := ("color"), helpText := none, required := true,
    type := ("TEXT"), options := [], active := false }

/-- An optional boolean custom field, as in the spec scenario. -/
def isLoanedField : CustomFieldZodSchema :=
  { id := ("cf2"), name := ("is_loaned"), helpText := (""), required := false,
    type := ("boolean"), options := [] }

/-- The merge of the base schema with `isLoanedField`. -/
def mergedWithIsLoaned : Schema :=
  NewAssetFormSchema ++ [(("is_loaned"), Rule.custom FieldType.boolean false)]

/-- Raw values that satisfy the base schema and omit `is_loaned`. -/
def titledRawValues : RawValues := [(("title"), ("Asset number one"))]

/-- A custom-field definition with a type outside the recognised set. -/
def selectTypeField : CustomFieldZodSchema :=
  { id := ("cf3"), name := ("status"), helpText := (""), required := true,
    type := ("select"), options := [("a"), ("b")] }

/-- An upload with a MIME type outside the allow-list. -/
def sampleBadFile : FileUpload :=
  { filename := ("cat.gif"), mimeType := ("image/gif"), size := 100 }

/-- The keys of the collected errors are the violated fields, in schema
order. -/
theorem collectErrors_map_fst (s : Schema) (rv : RawValues) :
    (collectErrors s rv).map Prod.fst = violatedFields s rv := by
  induction s with
  | nil => rfl
  | cons f rest ih =>
    simp only [collectErrors, violatedFields, List.filterMap_cons, List.filter_cons] at *
    cases h : checkRule f.1 f.2 (lookupField rv f.1) with
    | error m => simp [ruleViolated, h, ih]
    | ok v => simp [ruleViolated, h, ih]

/-- C1: for raw values violating the rules of several fields, `validate`
collects an error for every violated field in a single pass and returns
an `invalid` result with exactly one entry per violated field, never
stopping at the first failure. -/
theorem validate_collects_all_errors (s : Schema) (rv : RawValues)
    (h : violatedFields s rv ≠ []) :
    ∃ errs, validate s rv = ValidationResult.invalid errs ∧
      errs.map Prod.fst = violatedFields s rv ∧
      errs.length = (violatedFields s rv).length := by
  refine ⟨collectErrors s rv, ?_, collectErrors_map_fst s rv, ?_⟩
  · have hne : collectErrors s rv ≠ [] := by
      intro hnil
      apply h
      rw [← collectErrors_map_fst, hnil]
      rfl
    simp only [validate]
    rw [if_neg (by simpa [List.isEmpty_iff] using hne)]
  · rw [← collectErrors_map_fst s rv, List.length_map]

/-- Witness for C1: raw values violating three independent fields (the
required base title and two required custom fields) yield exactly three
error entries. -/
theorem validate_collects_all_errors_witness :
    violatedFields sampleThreeViolationsSchema [] ≠ [] ∧
    ∃ errs, validate sampleThreeViolationsSchema [] = ValidationResult.invalid errs ∧
      errs.map Prod.fst = violatedFields sampleThreeViolationsSchema [] ∧
      errs.length = 3 := by
  have h : violatedFields sampleThreeViolationsSchema [] ≠ [] := by decide
  obtain ⟨errs, h1, h2, h3⟩ := validate_collects_all_errors sampleThreeViolationsSchema [] h
  refine ⟨h, errs, h1, h2, ?_⟩
  rw [h3]
  rfl

/-- C2: for the base schema (title required, no custom fields), the raw
values with empty title and an ok description validate to `invalid`,
and the error recorded for `title` is exactly "Title is required". -/
theorem base_schema_title_required_scenario :
    validate NewAssetFormSchema [(("title"), ("")), (("description"), ("ok"))] =
      ValidationResult.invalid [(("title"), ("Title is required"))] := rfl

/-- C3: the sequence the asset form passes to the schema merger is NOT
the sequence of active definitions: an inactive loader record is mapped
to a `false` placeholder (`none`) that stays in the sequence, instead of
being removed as the spec requires. -/
theorem inactive_field_not_filtered :
    customFieldsPassedToMerge [inactiveColorField] = [none] ∧
    activeCustomFieldsSpec [inactiveColorField] = [] ∧
    customFieldsPassedToMerge [inactiveColorField] ≠ activeCustomFieldsSpec [inactiveColorField] := by
  refine ⟨rfl, rfl, ?_⟩
  decide

/-- C4: `validate` never takes an exceptional path on invalid user
input: for every schema and raw values it returns a fully-typed
`ValidationResult` — `valid` data, or `invalid` with a non-empty error
mapping. -/
theorem validate_never_throws (s : Schema) (rv : RawValues) :
    (∃ d, validate s rv = ValidationResult.valid d) ∨
    (∃ errs, errs ≠ [] ∧ validate s rv = ValidationResult.invalid errs) := by
  by_cases h : (collectErrors s rv).isEmpty
  · left
    exact ⟨collectData s rv, by simp only [validate]; rw [if_pos h]⟩
  · right
    refine ⟨collectErrors s rv, ?_, by simp only [validate]; rw [if_neg h]⟩
    intro hnil
    apply h
    rw [hnil]
    rfl

/-- C5: when validation of a booking submission yields `invalid`, the
action performs no effect at all — in particular no `upsertBooking`
persistence — and returns every field error simultaneously as a 400
response. -/
theorem invalid_submission_no_persistence (schema : Schema) (rv : RawValues)
    (intent : Intent) (id organizationId : String) (errs : List (String × String))
    (h : validate schema rv = ValidationResult.invalid errs) :
    bookingAction schema rv intent id organizationId = (ActionResponse.errorJson errs 400, []) := by
  unfold bookingAction
  rw [h]

/-- Witness for C5: the empty submission fails the base schema on the
title, and the action for intent `save` returns the 400 error response
with no effects. -/
theorem invalid_submission_no_persistence_witness :
    validate NewAssetFormSchema [] = ValidationResult.invalid [(("title"), ("Title is required"))] ∧
    bookingAction NewAssetFormSchema [] Intent.save ("b1") ("o1") =
      (ActionResponse.errorJson [(("title"), ("Title is required"))] 400, []) :=
  ⟨rfl,
   invalid_submission_no_persistence NewAssetFormSchema [] Intent.save ("b1") ("o1")
     [(("title"), ("Title is required"))] rfl⟩

/-- C8: merging twice with identical inputs yields schemas that behave
identically under `validate` on any raw values. -/
theorem merge_idempotent_under_validate (base : Schema) (cfs : List CustomFieldZodSchema)
    (rv : RawValues) (s₁ s₂ : Schema)
    (h₁ : mergedSchema base cfs = Except.ok s₁)
    (h₂ : mergedSchema base cfs = Except.ok s₂) :
    validate s₁ rv = validate s₂ rv := by
  rw [h₁] at h₂
  injection h₂ with h
  rw [h]

/-- Witness for C8: two identical merges of the base schema with the
`is_loaned` custom field validate the empty raw values identically. -/
theorem merge_idempotent_under_validate_witness :
    mergedSchema NewAssetFormSchema [isLoanedField] = Except.ok mergedWithIsLoaned ∧
    validate mergedWithIsLoaned [] = validate mergedWithIsLoaned [] :=
  ⟨rfl,
   merge_idempotent_under_validate NewAssetFormSchema [isLoanedField] [] mergedWithIsLoaned
     mergedWithIsLoaned rfl rfl⟩

/-- A custom field with a recognised type derives some rule. -/
theorem customRule_ok_of_valid (cf : CustomFieldZodSchema)
    (h : isValidFieldType cf.type = true) :
    ∃ r, customRule cf = Except.ok r := by
  unfold customRule
  by_cases h1 : cf.type = ("text")
  · exact ⟨_, by rw [if_pos h1]⟩
  rw [if_neg h1]
  by_cases h2 : cf.type = ("number")
  · exact ⟨_, by rw [if_pos h2]⟩
  rw [if_neg h2]
  by_cases h3 : cf.type = ("date")
  · exact ⟨_, by rw [if_pos h3]⟩
  rw [if_neg h3]
  by_cases h4 : cf.type = ("boolean")
  · exact ⟨_, by rw [if_pos h4]⟩
  exfalso
  unfold isValidFieldType at h
  simp only [Bool.or_eq_true, beq_iff_eq] at h
  rcases h with ((h | h) | h) | h
  · exact h1 h
  · exact h2 h
  · exact h3 h
  · exact h4 h

/-- A custom field with an unrecognised type derives the configuration
error naming that field. -/
theorem customRule_error_of_invalid (cf : CustomFieldZodSchema)
    (h : isValidFieldType cf.type = false) :
    customRule cf = Except.error { fieldName := cf.name } := by
  unfold isValidFieldType at h
  simp only [Bool.or_eq_false_iff, beq_eq_false_iff_ne, ne_eq] at h
  unfold customRule
  rw [if_neg h.1.1.1, if_neg h.1.1.2, if_neg h.1.2, if_neg h.2]

/-- Building the custom rule set fails on a malformed definition,
naming an offending field. -/
theorem buildCustomRules_unknown_type (cfs : List CustomFieldZodSchema)
    (h : ∃ cf ∈ cfs, isValidFieldType cf.type = false) :
    ∃ cf ∈ cfs, isValidFieldType cf.type = false ∧
      buildCustomRules cfs = Except.error { fieldName := cf.name } := by
  induction cfs with
  | nil =>
    obtain ⟨cf, hmem, _⟩ := h
    cases hmem
  | cons c rest ih =>
    by_cases hc : isValidFieldType c.type
    · obtain ⟨r, hr⟩ := customRule_ok_of_valid c hc
      have hrest : ∃ cf ∈ rest, isValidFieldType cf.type = false := by
        obtain ⟨cf, hmem, hbad⟩ := h
        rcases List.mem_cons.mp hmem with heq | hmem2
        · rw [heq] at hbad
          rw [hbad] at hc
          cases hc
        · exact ⟨cf, hmem2, hbad⟩
      obtain ⟨cf, hmem, hbad, herr⟩ := ih hrest
      refine ⟨cf, List.mem_cons_of_mem _ hmem, hbad, ?_⟩
      simp only [buildCustomRules, hr, herr]
    · refine ⟨c, List.mem_cons_self _ _, by simpa using hc, ?_⟩
      have herr := customRule_error_of_invalid c (by simpa using hc)
      simp only [buildCustomRules, herr]

/-- C9: a custom-field sequence containing a definition whose type is
outside the recognised set makes the merge fail with a
`SchemaConfigurationError` identifying an offending field name, rather
than silently skipping the malformed definition. -/
theorem unknown_type_fails_merge (base : Schema) (cfs : List CustomFieldZodSchema)
    (h : ∃ cf ∈ cfs, isValidFieldType cf.type = false) :
    ∃ cf ∈ cfs, isValidFieldType cf.type = false ∧
      mergedSchema base cfs = Except.error { fieldName := cf.name } := by
  obtain ⟨cf, hmem, hbad, herr⟩ := buildCustomRules_unknown_type cfs h
  refine ⟨cf, hmem, hbad, ?_⟩
  simp only [mergedSchema, herr, Except.map]

/-- Witness for C9: a definition of type `select` makes the merge fail
with the error naming that field. -/
theorem unknown_type_fails_merge_witness :
    (∃ cf ∈ [selectTypeField], isValidFieldType cf.type = false) ∧
    (∃ cf ∈ [selectTypeField], isValidFieldType cf.type = false ∧
      mergedSchema NewAssetFormSchema [selectTypeField] = Except.error { fieldName := cf.name }) :=
  ⟨by decide, unknown_type_fails_merge NewAssetFormSchema [selectTypeField] (by decide)⟩

/-- The state-threaded field read returns the store unchanged. -/
theorem lookupFieldSt_eq (rv : RawValues) (name : String) :
    lookupFieldSt rv name = (lookupField rv name, rv) := by
  unfold lookupFieldSt lookupField
  cases rv.find? (fun p => p.1 == name) <;> rfl

/-- The state-threaded pass computes the per-field results of the pure
pass and returns the store unchanged. -/
theorem checkFieldsSt_eq (s : Schema) (rv : RawValues) :
    checkFieldsSt s rv =
      (s.map (fun f => (f.1, checkRule f.1 f.2 (lookupField rv f.1))), rv) := by
  induction s with
  | nil => rfl
  | cons f rest ih => simp [checkFieldsSt, lookupFieldSt_eq, ih]

/-- The error entries of the per-field results are the collected
errors. -/
theorem resultsErrors_map (s : Schema) (rv : RawValues) :
    resultsErrors (s.map (fun f => (f.1, checkRule f.1 f.2 (lookupField rv f.1)))) =
      collectErrors s rv := by
  unfold resultsErrors collectErrors
  rw [List.filterMap_map]
  rfl

/-- The data entries of the per-field results are the collected data. -/
theorem resultsData_map (s : Schema) (rv : RawValues) :
    resultsData (s.map (fun f => (f.1, checkRule f.1 f.2 (lookupField rv f.1)))) =
      collectData s rv := by
  unfold resultsData collectData
  rw [List.filterMap_map]
  rfl

/-- C10: `validate`, run as a pass over the mutable raw-values mapping,
produces the pure result and leaves the mapping identical to the input:
the pipeline is a pure function of its arguments with no mutation of
`rawValues`. -/
theorem validate_pure_no_mutation (s : Schema) (rv : RawValues) :
    validateSt s rv = (validate s rv, rv) := by
  unfold validateSt validate
  rw [checkFieldsSt_eq]
  simp [resultsErrors_map, resultsData_map]

/-- Collected errors distribute over schema concatenation. -/
theorem collectErrors_append (a b : Schema) (rv : RawValues) :
    collectErrors (a ++ b) rv = collectErrors a rv ++ collectErrors b rv := by
  unfold collectErrors
  rw [List.filterMap_append]

/-- Collected data distributes over schema concatenation. -/
theorem collectData_append (a b : Schema) (rv : RawValues) :
    collectData (a ++ b) rv = collectData a rv ++ collectData b rv := by
  unfold collectData
  rw [List.filterMap_append]

/-- Every collected error is keyed by the name of a schema field. -/
theorem mem_collectErrors_name (s : Schema) (rv : RawValues) (p : String × String)
    (h : p ∈ collectErrors s rv) : p.1 ∈ s.map Prod.fst := by
  unfold collectErrors at h
  rw [List.mem_filterMap] at h
  obtain ⟨f, hf, hfp⟩ := h
  cases hc : checkRule f.1 f.2 (lookupField rv f.1) with
  | error m =>
    simp only [hc] at hfp
    injection hfp with h2
    rw [← h2]
    exact List.mem_map.mpr ⟨f, hf, rfl⟩
  | ok v =>
    simp only [hc] at hfp
    cases hfp

/-- An `invalid` result carries exactly the collected errors. -/
theorem validate_invalid_inv (s : Schema) (rv : RawValues) (errs : List (String × String))
    (h : validate s rv = ValidationResult.invalid errs) : errs = collectErrors s rv := by
  simp only [validate] at h
  by_cases he : (collectErrors s rv).isEmpty
  · rw [if_pos he] at h
    cases h
  · rw [if_neg he] at h
    injection h with h2
    exact h2.symm

/-- A `valid` result carries exactly the collected data. -/
theorem validate_valid_inv (s : Schema) (rv : RawValues) (d : List (String × FieldValue))
    (h : validate s rv = ValidationResult.valid d) : d = collectData s rv := by
  simp only [validate] at h
  by_cases he : (collectErrors s rv).isEmpty
  · rw [if_pos he] at h
    injection h with h2
    exact h2.symm
  · rw [if_neg he] at h
    cases h

/-- The custom rule set carries exactly the definition names, in order. -/
theorem buildCustomRules_names (cfs : List CustomFieldZodSchema) (rs : Schema)
    (h : buildCustomRules cfs = Except.ok rs) :
    rs.map Prod.fst = cfs.map CustomFieldZodSchema.name := by
  induction cfs generalizing rs with
  | nil =>
    simp only [buildCustomRules] at h
    injection h with h2
    rw [← h2]
    rfl
  | cons cf rest ih =>
    cases hc : customRule cf with
    | error e =>
      simp only [buildCustomRules, hc] at h
      cases h
    | ok r =>
      cases hr : buildCustomRules rest with
      | error e =>
        simp only [buildCustomRules, hc, hr] at h
        cases h
      | ok rs2 =>
        simp only [buildCustomRules, hc, hr] at h
        injection h with h2
        rw [← h2]
        simp [ih rs2 hr]

/-- C6: the reserved main-image upload is validated by its own narrower
rule, not by the merged schema: the merged schema has no `mainImage`
rule, the merged-schema verdict is unchanged by the file, and the file
error joins the same field-keyed error mapping under the reserved key. -/
theorem main_image_separate_rule (cfs : List CustomFieldZodSchema) (s : Schema)
    (rv : RawValues) (file : Option FileUpload)
    (hname : ∀ cf ∈ cfs, cf.name ≠ ("mainImage"))
    (hmerge : mergedSchema NewAssetFormSchema cfs = Except.ok s) :
    (("mainImage") ∉ s.map Prod.fst) ∧
    errorList (fullValidate s rv file) = errorList (validate s rv) ++ (validateFile file).toList ∧
    (∀ fe ∈ (validateFile file).toList, fe.1 = ("mainImage")) := by
  refine ⟨?_, ?_, ?_⟩
  · cases hb : buildCustomRules cfs with
    | error e =>
      simp only [mergedSchema, hb, Except.map] at hmerge
      cases hmerge
    | ok rs =>
      simp only [mergedSchema, hb, Except.map] at hmerge
      injection hmerge with h2
      rw [← h2, List.map_append]
      intro hmem
      rcases List.mem_append.mp hmem with hA | hB
      · revert hA
        decide
      · rw [buildCustomRules_names cfs rs hb] at hB
        obtain ⟨cf, hcf, hn⟩ := List.mem_map.mp hB
        exact hname cf hcf hn
  · unfold fullValidate
    cases hf : validateFile file with
    | none => simp [errorList]
    | some fe =>
      cases hv : validate s rv with
      | valid d => simp [errorList, hv]
      | invalid errs => simp [errorList, hv]
  · intro fe hfe
    cases file with
    | none => simp [validateFile] at hfe
    | some f =>
      simp only [validateFile] at hfe
      split at hfe
      · split at hfe
        · simp at hfe
        · simp at hfe
          rw [hfe]
      · simp at hfe
        rw [hfe]

/-- Witness for C6: with no custom fields, the merged schema is the base
schema, which has no `mainImage` rule; a disallowed-MIME upload yields
the file-specific error under the reserved key, appended to the merged
schema's own errors. -/
theorem main_image_separate_rule_witness :
    (∀ cf ∈ ([] : List CustomFieldZodSchema), cf.name ≠ ("mainImage")) ∧
    mergedSchema NewAssetFormSchema [] = Except.ok NewAssetFormSchema ∧
    ((("mainImage") ∉ NewAssetFormSchema.map Prod.fst) ∧
     errorList (fullValidate NewAssetFormSchema [] (some sampleBadFile)) =
       errorList (validate NewAssetFormSchema []) ++ (validateFile (some sampleBadFile)).toList ∧
     (∀ fe ∈ (validateFile (some sampleBadFile)).toList, fe.1 = ("mainImage"))) :=
  ⟨by simp, rfl,
   main_image_separate_rule [] NewAssetFormSchema [] (some sampleBadFile) (by simp) rfl⟩

/-- C7: an optional boolean custom field absent from the raw values
never contributes an error, and on a `valid` result its coerced value is
recorded as `false`. -/
theorem boolean_optional_absent_defaults_false (cf : CustomFieldZodSchema) (s : Schema)
    (rv : RawValues)
    (htype : cf.type = ("boolean")) (hreq : cf.required = false)
    (hbase : cf.name ∉ NewAssetFormSchema.map Prod.fst)
    (hmerge : mergedSchema NewAssetFormSchema [cf] = Except.ok s)
    (habsent : lookupField rv cf.name = ("")) :
    (∀ errs m, validate s rv = ValidationResult.invalid errs → (cf.name, m) ∈ errs → False) ∧
    (∀ d, validate s rv = ValidationResult.valid d → (cf.name, FieldValue.bool false) ∈ d) := by
  have hcr : customRule cf = Except.ok (Rule.custom FieldType.boolean false) := by
    unfold customRule
    rw [htype, hreq]
    rfl
  have hb : buildCustomRules [cf] = Except.ok [(cf.name, Rule.custom FieldType.boolean false)] := by
    simp only [buildCustomRules, hcr]
  have hs : s = NewAssetFormSchema ++ [(cf.name, Rule.custom FieldType.boolean false)] := by
    simp only [mergedSchema, hb, Except.map] at hmerge
    injection hmerge with h2
    exact h2.symm
  have hck : checkRule cf.name (Rule.custom FieldType.boolean false) ("") =
      Except.ok (some (FieldValue.bool false)) := rfl
  have hsingleErr : collectErrors [(cf.name, Rule.custom FieldType.boolean false)] rv = [] := by
    unfold collectErrors
    simp only [List.filterMap_cons, List.filterMap_nil]
    rw [habsent, hck]
  have hsingleData : collectData [(cf.name, Rule.custom FieldType.boolean false)] rv =
      [(cf.name, FieldValue.bool false)] := by
    unfold collectData
    simp only [List.filterMap_cons, List.filterMap_nil]
    rw [habsent, hck]
  constructor
  · intro errs m hv hmem
    have herrs := validate_invalid_inv s rv errs hv
    rw [herrs, hs, collectErrors_append, hsingleErr, List.append_nil] at hmem
    exact hbase (mem_collectErrors_name NewAssetFormSchema rv (cf.name, m) hmem)
  · intro d hv
    have hd := validate_valid_inv s rv d hv
    rw [hd, hs, collectData_append, hsingleData]
    exact List.mem_append_right _ (List.mem_singleton_self _)

/-- Witness for C7: the `is_loaned` optional boolean field, omitted from
raw values that satisfy the base schema, yields no error and a recorded
value of `false`. -/
theorem boolean_optional_absent_defaults_false_witness :
    (isLoanedField.type = ("boolean") ∧ isLoanedField.required = false ∧
     isLoanedField.name ∉ NewAssetFormSchema.map Prod.fst ∧
     mergedSchema NewAssetFormSchema [isLoanedField] = Except.ok mergedWithIsLoaned ∧
     lookupField titledRawValues isLoanedField.name = ("")) ∧
    ((∀ errs m, validate mergedWithIsLoaned titledRawValues = ValidationResult.invalid errs →
        (isLoanedField.name, m) ∈ errs → False) ∧
     (∀ d, validate mergedWithIsLoaned titledRawValues = ValidationResult.valid d →
        (isLoanedField.name, FieldValue.bool false) ∈ d)) :=
  ⟨⟨rfl, rfl, by decide, rfl, rfl⟩,
   boolean_optional_absent_defaults_false isLoanedField mergedWithIsLoaned titledRawValues
     rfl rfl (by decide) rfl rfl⟩
